import Mathlib

/-!
Verification of the tool-orchestration conversation loop of the
investor-agent repository.

The embedding follows `src/src/llm_with_tools.py` (the orchestration loop
`analyze_market_with_tools`) and `src/function_registry.py` (the `functions`
registry built by looking every configured name up on the remote platform).

External collaborators are parameters of the embedding:
  * the Model Client (`llm_client.messages.create`) is a function from the
    message list to `Except String ModelResponse`; the `Except.error` case is
    a raised exception (transport error);
  * a resolved remote handle (`modal.Function`) is a function from the
    argument record to `Except String Json`; the `Except.error` case is a
    raised exception during the remote call;
  * `modal.Function.lookup` (used only at registry construction) is a
    function from (app name, function name) to `Except String Handle`.

The Python `while True:` loop is modelled with explicit fuel: `none` means
the fuel ran out while the loop was still running.  Every model invocation
and every dispatcher invocation is also recorded in an event trace, so that
claims about which remote calls happen, and in which order, can be stated.
Python's mutable locals (`chat_history`, `generated_messages`) are modelled
by explicit state passing through `LoopState`.
-/

/-- Conversation roles: the `role` field of `ChatMessage` is
`Literal["user", "assistant"]` in the source. -/
inductive Role where
  | user
  | assistant
deriving DecidableEq, Repr

/-- `ChatMessage(TypedDict)`: one turn of the conversation, `{role, content}`. -/
structure ChatMessage where
  role : Role
  content : String
deriving DecidableEq, Repr

/-- A JSON-like value: the payload a remote tool returns and the values in a
tool call's argument record. -/
inductive Json where
  | null
  | bool (b : Bool)
  | num (n : Int)
  | str (s : String)
  | arr (elems : List Json)
  | obj (fields : List (String × Json))

/-- Canonical text serialization of a payload, modelling
`json.dumps(tool_result, indent=2)` (an external library function; the exact
layout is irrelevant to the loop, only that the turn content is the
serialization of the payload). -/
def Json.dumps : Json → String
  | .null => "null"
  | .bool true => "true"
  | .bool false => "false"
  | .num n => toString n
  | .str s => "\"" ++ s ++ "\""
  | .arr elems => "[" ++ String.intercalate ", "
      (elems.attach.map fun x => x.1.dumps) ++ "]"
  | .obj fields => "\x7b" ++ String.intercalate ", "
      (fields.attach.map fun f => "\"" ++ f.1.1 ++ "\": " ++ f.1.2.dumps) ++ "\x7d"
termination_by j => sizeOf j
decreasing_by
  · have h := List.sizeOf_lt_of_mem x.2
    simp only [Json.arr.sizeOf_spec]
    omega
  · have h := List.sizeOf_lt_of_mem f.2
    have h2 : sizeOf f.1 = 1 + sizeOf f.1.1 + sizeOf f.1.2 := by
      obtain ⟨⟨k, v⟩, hm⟩ := f
      simp
    simp only [Json.obj.sizeOf_spec]
    omega

/-- The argument record of a tool call (`block.input`, a mapping
string → value). -/
def Args := List (String × Json)

/-- A resolved remote handle: `modal.Function`'s `.remote(**tool_input)`
call, which either returns a payload or raises. -/
def Handle := Args → Except String Json

/-- One content block of a model response: `block.type` is either `"text"`
(carrying `block.text`) or `"tool_use"` (carrying `block.name` and
`block.input`). -/
inductive Block where
  | text (t : String)
  | tool_use (name : String) (input : Args)

/-- A model response as the loop inspects it: `response.stop_reason` and
`response.content`. -/
structure ModelResponse where
  stop_reason : String
  content : List Block

/-- An observable remote invocation made by the loop: one Model Client call
(with the message list it was sent) or one dispatcher invocation of a tool
(with the name and argument record). -/
inductive Event where
  | modelCall (messages : List ChatMessage)
  | toolCall (name : String) (input : Args)

/-- True exactly on Model Client invocations. -/
def Event.isModelCall : Event → Bool
  | .modelCall _ => true
  | .toolCall _ _ => false

/-- The configured logical-tool-name → (app name, function name) mapping of
`src/function_registry.py`, in source order. -/
def registryConfig : List (String × String × String) :=
  [ ("get_news", "news", "get_news"),
    ("scrape_website", "firecrawl-app", "scrape_website"),
    ("get_top_trending_tickers", "trending-stocks", "get_top_trending_tickers"),
    ("generate_trending_summaries", "trending-stocks", "generate_trending_summaries"),
    ("add_to_watchlist", "watchlist", "add_to_watchlist"),
    ("fetch_fear_and_greed", "fear-and-greed", "fetch_fear_and_greed"),
    ("fetch_bitcoin_fear_and_greed", "bitcoin-fear-and-greed", "fetch_bitcoin_fear_and_greed"),
    ("get_crypto_funding_rates", "crypto-funding-rates", "get_crypto_funding_rates"),
    ("scrape_crypto_iv_rank", "crypto-iv-rank", "scrape_crypto_iv_rank"),
    ("get_options", "options", "get_options"),
    ("get_volatility_data", "volatility-analysis", "get_volatility_data"),
    ("get_market_metrics", "tastytrade-client", "get_market_metrics"),
    ("get_current_position_symbols", "tastytrade-client", "get_current_position_symbols"),
    ("get_ticker_analysis", "ticker-analysis", "generate_investment_report"),
    ("filter_interesting_tickers", "ticker-analysis", "filter_interesting_tickers"),
    ("reason_about_ticker", "ticker-analysis", "reason_about_ticker"),
    ("process_wsb_data", "wsb-client", "process_wsb_data"),
    ("analyze_market_with_tools", "llm-with-tools", "analyze_market_with_tools") ]

/-- The `functions` dict of `src/function_registry.py`: for every configured
entry, `Function.lookup(app, fn)` is attempted inside `try`, and on any
exception the entry is stored as `None` (here: `none`) instead of aborting
construction.  `lookupFn` is the external `modal.Function.lookup`. -/
def functions (lookupFn : String → String → Except String Handle) :
    List (String × Option Handle) :=
  registryConfig.map fun e => (e.1, (lookupFn e.2.1 e.2.2).toOption)

/-- `functions[tool_name].remote(**tool_input)` (line 115 of
`llm_with_tools.py`): dict lookup raises `KeyError` when the name is absent,
`.remote` on a stored `None` raises `AttributeError`, and the remote call
itself may raise; all three are `Except.error` here.  `fns` is the dict
lookup of the constructed registry. -/
def execToolCall (fns : String → Option (Option Handle)) (name : String)
    (input : Args) : Except String Json :=
  match fns name with
  | none => .error ("KeyError: " ++ name)
  | some none => .error "AttributeError: NoneType object has no attribute remote"
  | some (some h) => h input

/-- The `for block in response.content` loop of the `tool_use` branch
(lines 106-123): each `tool_use` block is dispatched in order; a successful
call appends one USER-role turn whose content is `json.dumps` of the payload
to `tool_results`; a raised exception is logged and skipped (no turn).
Returns the collected `tool_results` together with the dispatch events in
order. -/
def processBlocks (fns : String → Option (Option Handle)) :
    List Block → List ChatMessage × List Event
  | [] => ([], [])
  | .text _ :: rest => processBlocks fns rest
  | .tool_use name input :: rest =>
    let r := processBlocks fns rest
    match execToolCall fns name input with
    | .error _ => (r.1, .toolCall name input :: r.2)
    | .ok payload =>
      (⟨.user, Json.dumps payload⟩ :: r.1, .toolCall name input :: r.2)

/-- Python's blank test `not content.strip()` (line 87): true exactly when
the content is empty or consists of whitespace characters only. -/
def isBlank (s : String) : Bool := s.data.all Char.isWhitespace

/-- The mutable locals of one invocation of the loop: the caller-supplied
`chat_history` and the loop-owned `generated_messages`. -/
structure LoopState where
  chat_history : List ChatMessage
  generated_messages : List ChatMessage

/-- One iteration of the `while True:` body (lines 92-130): invoke the
Model Client on `chat_history + generated_messages`; on `stop_reason ==
"tool_use"` process the blocks and continue (`.inl` = next state); otherwise
append one ASSISTANT turn with `response.content[0].text` and return
`generated_messages` (`.inr`).  A raised exception is `Except.error`. -/
def loopStep (fns : String → Option (Option Handle))
    (model : List ChatMessage → Except String ModelResponse) (s : LoopState) :
    Except String (LoopState ⊕ List ChatMessage) × List Event :=
  match model (s.chat_history ++ s.generated_messages) with
  | .error e => (.error e, [.modelCall (s.chat_history ++ s.generated_messages)])
  | .ok resp =>
    if resp.stop_reason == "tool_use" then
      (.ok (.inl ⟨s.chat_history,
          s.generated_messages ++ (processBlocks fns resp.content).1⟩),
        .modelCall (s.chat_history ++ s.generated_messages)
          :: (processBlocks fns resp.content).2)
    else
      match resp.content with
      | [] => (.error "list index out of range",
          [.modelCall (s.chat_history ++ s.generated_messages)])
      | .tool_use _ _ :: _ =>
        (.error "ToolUseBlock object has no attribute text",
          [.modelCall (s.chat_history ++ s.generated_messages)])
      | .text t :: _ =>
        (.ok (.inr (s.generated_messages ++ [⟨.assistant, t⟩])),
          [.modelCall (s.chat_history ++ s.generated_messages)])

/-- The `while True:` loop with explicit fuel: `none` means the fuel was
exhausted with the loop still running (the source enforces no round limit).
Also accumulates the event trace. -/
def loop (fns : String → Option (Option Handle))
    (model : List ChatMessage → Except String ModelResponse) :
    Nat → LoopState → Option (Except String (List ChatMessage)) × List Event
  | 0, _ => (none, [])
  | fuel + 1, s =>
    match loopStep fns model s with
    | (.error e, evs) => (some (.error e), evs)
    | (.ok (.inr out), evs) => (some (.ok out), evs)
    | (.ok (.inl s2), evs) =>
      let r := loop fns model fuel s2
      (r.1, evs ++ r.2)

/-- `analyze_market_with_tools(chat_history, ...)` (lines 21-135): inside the
outer `try`, `chat_history[-1]` raises `IndexError` on an empty history
(caught by the outer handler); a blank last turn returns the single
validation turn; otherwise the loop runs; any exception escaping to the
outer handler is returned as one assistant turn
`"Error generating analysis: ..."`. -/
def analyze_market_with_tools (fns : String → Option (Option Handle))
    (model : List ChatMessage → Except String ModelResponse)
    (chat_history : List ChatMessage) (fuel : Nat) :
    Option (List ChatMessage) × List Event :=
  match chat_history.getLast? with
  | none =>
    (some [⟨.assistant, "Error generating analysis: list index out of range"⟩], [])
  | some last =>
    if isBlank last.content then
      (some [⟨.assistant, "Error: Please provide a valid query."⟩], [])
    else
      match loop fns model fuel ⟨chat_history, []⟩ with
      | (none, evs) => (none, evs)
      | (some (.error e), evs) =>
        (some [⟨.assistant, "Error generating analysis: " ++ e⟩], evs)
      | (some (.ok out), evs) => (some out, evs)

/-! Concrete collaborators used to exercise the loop on closed inputs. -/

/-- A registry whose dict has no entries at all. -/
def emptyFns : String → Option (Option Handle) := fun _ => none

/-- A remote handle that always succeeds with the payload `"data"`. -/
def okHandle : Handle := fun _ => .ok (.str "data")

/-- A registry holding exactly one resolved entry, for `get_news`. -/
def newsFns : String → Option (Option Handle) := fun n =>
  if n == "get_news" then some (some okHandle) else none

/-- A Model Client that always raises a transport error. -/
def errModel : List ChatMessage → Except String ModelResponse := fun _ =>
  .error "boom"

/-- A Model Client that requests `get_news` on the first round (one message
in the conversation) and raises a transport error on every later round. -/
def twoPhaseModel : List ChatMessage → Except String ModelResponse := fun msgs =>
  if msgs.length ≤ 1 then .ok ⟨"tool_use", [.tool_use "get_news" []]⟩
  else .error "boom"

/-- A Model Client that immediately returns a final textual answer. -/
def finalModel : List ChatMessage → Except String ModelResponse := fun _ =>
  .ok ⟨"end_turn", [.text "done"]⟩

/-- A Model Client that requests tool use on every round. -/
def toolLoopModel : List ChatMessage → Except String ModelResponse := fun _ =>
  .ok ⟨"tool_use", []⟩

/-- A remote platform on which every `Function.lookup` fails. -/
def failLookup : String → String → Except String Handle := fun _ _ =>
  .error "unreachable platform"

/-- A Model Client that requests a three-call batch in which the middle
tool name is not in the registry. -/
def batchModel : List ChatMessage → Except String ModelResponse := fun _ =>
  .ok ⟨"tool_use",
    [.tool_use "get_news" [], .tool_use "missing" [], .tool_use "get_news" []]⟩

/-! Helper lemmas about the block-processing pass and the loop trace. -/

/-- Every turn collected by the block-processing pass has role USER. -/
theorem processBlocks_roles (fns : String → Option (Option Handle)) :
    ∀ bs : List Block, ∀ x ∈ (processBlocks fns bs).1, x.role = Role.user
  | [] => by simp [processBlocks]
  | .text t :: rest => by
    simpa [processBlocks] using processBlocks_roles fns rest
  | .tool_use name input :: rest => by
    have ih := processBlocks_roles fns rest
    unfold processBlocks
    cases hx : execToolCall fns name input <;> simp_all

/-- No dispatcher event is a Model Client event: the block-processing pass
never invokes the model. -/
theorem processBlocks_no_modelCall (fns : String → Option (Option Handle)) :
    ∀ bs : List Block, ((processBlocks fns bs).2).countP Event.isModelCall = 0
  | [] => by simp [processBlocks]
  | .text t :: rest => by
    simpa [processBlocks] using processBlocks_no_modelCall fns rest
  | .tool_use name input :: rest => by
    have ih := processBlocks_no_modelCall fns rest
    unfold processBlocks
    cases hx : execToolCall fns name input <;>
      simp_all [List.countP_cons, Event.isModelCall]

/-- Inversion of one loop iteration that continues: the model responded with
`stop_reason == "tool_use"`, the caller-supplied history is passed on
unchanged, and the generated turns are extended exactly by the collected
tool results. -/
theorem loopStep_inl (fns : String → Option (Option Handle))
    (model : List ChatMessage → Except String ModelResponse)
    (s s2 : LoopState) (evs : List Event)
    (h : loopStep fns model s = (.ok (.inl s2), evs)) :
    ∃ resp : ModelResponse,
      model (s.chat_history ++ s.generated_messages) = .ok resp ∧
      resp.stop_reason = "tool_use" ∧
      s2.chat_history = s.chat_history ∧
      s2.generated_messages
        = s.generated_messages ++ (processBlocks fns resp.content).1 ∧
      evs = .modelCall (s.chat_history ++ s.generated_messages)
              :: (processBlocks fns resp.content).2 := by
  unfold loopStep at h
  split at h
  · simp at h
  · rename_i resp hm
    split at h
    · rename_i hs
      simp only [Prod.mk.injEq, Except.ok.injEq, Sum.inl.injEq] at h
      obtain ⟨hstate, hevs⟩ := h
      subst hstate
      exact ⟨resp, hm, by simpa using hs, rfl, rfl, hevs.symm⟩
    · split at h <;> simp at h

/-- Inversion of one loop iteration that returns: the model responded with a
non-`tool_use` stop reason, its first content block is a text block, and the
returned list is the generated turns extended by exactly one ASSISTANT turn
carrying that text. -/
theorem loopStep_inr (fns : String → Option (Option Handle))
    (model : List ChatMessage → Except String ModelResponse)
    (s : LoopState) (o : List ChatMessage) (evs : List Event)
    (h : loopStep fns model s = (.ok (.inr o), evs)) :
    ∃ (resp : ModelResponse) (t : String) (rest : List Block),
      model (s.chat_history ++ s.generated_messages) = .ok resp ∧
      ¬ resp.stop_reason = "tool_use" ∧
      resp.content = .text t :: rest ∧
      o = s.generated_messages ++ [⟨Role.assistant, t⟩] ∧
      evs = [.modelCall (s.chat_history ++ s.generated_messages)] := by
  unfold loopStep at h
  split at h
  · simp at h
  · rename_i resp hm
    split at h
    · simp at h
    · rename_i hs
      split at h
      · simp at h
      · simp at h
      · rename_i t rest hc
        simp only [Prod.mk.injEq, Except.ok.injEq, Sum.inr.injEq] at h
        obtain ⟨ho, hevs⟩ := h
        exact ⟨resp, t, rest, hm, by simpa using hs, hc, ho.symm, hevs.symm⟩

/-- The first event of any loop iteration is the Model Client invocation on
the current conversation. -/
theorem loopStep_trace_head (fns : String → Option (Option Handle))
    (model : List ChatMessage → Except String ModelResponse) (s : LoopState) :
    ∃ rest : List Event, (loopStep fns model s).2
      = Event.modelCall (s.chat_history ++ s.generated_messages) :: rest := by
  unfold loopStep
  split
  · exact ⟨[], rfl⟩
  · split
    · exact ⟨_, rfl⟩
    · split <;> exact ⟨[], rfl⟩

/-- With at least one unit of fuel, the trace of the loop starts with the
Model Client invocation on the current conversation. -/
theorem loop_trace_cons (fns : String → Option (Option Handle))
    (model : List ChatMessage → Except String ModelResponse)
    (fuel : Nat) (s : LoopState) :
    ∃ rest : List Event, (loop fns model (fuel + 1) s).2
      = Event.modelCall (s.chat_history ++ s.generated_messages) :: rest := by
  obtain ⟨rest, hrest⟩ := loopStep_trace_head fns model s
  unfold loop
  split
  · rename_i e evs hstep
    rw [hstep] at hrest
    exact ⟨rest, hrest⟩
  · rename_i out evs hstep
    rw [hstep] at hrest
    exact ⟨rest, hrest⟩
  · rename_i s2 evs hstep
    rw [hstep] at hrest
    have hevs : evs = Event.modelCall (s.chat_history ++ s.generated_messages) :: rest :=
      hrest
    refine ⟨rest ++ (loop fns model fuel s2).2, ?_⟩
    show evs ++ (loop fns model fuel s2).2
      = Event.modelCall (s.chat_history ++ s.generated_messages)
          :: (rest ++ (loop fns model fuel s2).2)
    rw [hevs]
    simp

/-- Looking a configured key up in an association list built by mapping over
a configuration with pairwise-distinct keys returns that key's mapped value. -/
theorem lookup_map_config
    (lookupFn : String → String → Except String Handle) :
    ∀ cfg : List (String × String × String),
      (cfg.map fun e => e.1).Nodup →
      ∀ e ∈ cfg,
        (cfg.map fun c => (c.1, (lookupFn c.2.1 c.2.2).toOption)).lookup e.1
          = some (lookupFn e.2.1 e.2.2).toOption := by
  intro cfg
  induction cfg with
  | nil => intro _ e he; cases he
  | cons c rest ih =>
    intro hn e he
    rw [List.map_cons, List.nodup_cons] at hn
    obtain ⟨hc, hrest⟩ := hn
    rcases List.mem_cons.mp he with rfl | hmem
    · simp [List.lookup]
    · have hne : (e.1 == c.1) = false := by
        apply beq_eq_false_iff_ne.mpr
        intro hcontra
        exact hc (hcontra ▸ List.mem_map_of_mem (fun x => x.1) hmem)
      rw [List.map_cons]
      simp only [List.lookup, hne]
      exact ih hrest e hmem

/-! Claim theorems. -/

/-- C1: for every conversation history whose last turn's content is empty or
whitespace-only, `analyze_market_with_tools` returns exactly one
assistant-role turn carrying the validation error message, and the event
trace is empty — no Model Client call and no tool dispatch is performed. -/
theorem blank_input_short_circuit
    (fns : String → Option (Option Handle))
    (model : List ChatMessage → Except String ModelResponse)
    (hist : List ChatMessage) (fuel : Nat) (last : ChatMessage)
    (hlast : hist.getLast? = some last) (hblank : isBlank last.content = true) :
    analyze_market_with_tools fns model hist fuel =
      (some [⟨Role.assistant, "Error: Please provide a valid query."⟩], []) := by
  unfold analyze_market_with_tools
  rw [hlast]
  simp [hblank]

/-- Closed instance of the blank-input short-circuit at a whitespace-only
query. -/
theorem blank_input_short_circuit_witness :
    analyze_market_with_tools emptyFns errModel [⟨Role.user, "  "⟩] 5 =
      (some [⟨Role.assistant, "Error: Please provide a valid query."⟩], []) :=
  blank_input_short_circuit emptyFns errModel [⟨Role.user, "  "⟩] 5
    ⟨Role.user, "  "⟩ rfl (by decide)

/-- C10: on an empty conversation history the `IndexError` raised by
`chat_history[-1]` is caught at the outer boundary: the function returns a
single assistant-role turn carrying the error description, with an empty
event trace (no model call, no tool call) and no escaping exception. -/
theorem empty_history_handled
    (fns : String → Option (Option Handle))
    (model : List ChatMessage → Except String ModelResponse) (fuel : Nat) :
    analyze_market_with_tools fns model [] fuel =
      (some [⟨Role.assistant,
        "Error generating analysis: list index out of range"⟩], []) :=
  rfl

/-- C2: when the Model Client raises (transport error or unexpected response
shape), the whole invocation aborts with exactly one assistant turn
describing the failure; no user-role tool-result turn collected during the
invocation appears in the returned list. -/
theorem model_failure_aborts
    (fns : String → Option (Option Handle))
    (model : List ChatMessage → Except String ModelResponse)
    (hist : List ChatMessage) (fuel : Nat) (last : ChatMessage)
    (e : String) (evs : List Event)
    (hlast : hist.getLast? = some last) (hnb : isBlank last.content = false)
    (hloop : loop fns model fuel ⟨hist, []⟩ = (some (.error e), evs)) :
    analyze_market_with_tools fns model hist fuel =
      (some [⟨Role.assistant, "Error generating analysis: " ++ e⟩], evs) ∧
    ∀ t : ChatMessage, t.role = Role.user →
      t ∉ [(⟨Role.assistant, "Error generating analysis: " ++ e⟩ : ChatMessage)] := by
  constructor
  · unfold analyze_market_with_tools
    rw [hlast]
    simp [hnb, hloop]
  · intro t ht hmem
    simp only [List.mem_singleton] at hmem
    rw [hmem] at ht
    simp at ht

/-- Closed instance of the model-failure abort: one successful tool round
happens first, then the model raises; the returned list is the single error
turn, without the collected tool-result turn. -/
theorem model_failure_aborts_witness :
    analyze_market_with_tools newsFns twoPhaseModel [⟨Role.user, "hi"⟩] 2 =
      (some [⟨Role.assistant, "Error generating analysis: " ++ "boom"⟩],
       [.modelCall [⟨Role.user, "hi"⟩],
        .toolCall "get_news" [],
        .modelCall [⟨Role.user, "hi"⟩,
          ⟨Role.user, Json.dumps (.str "data")⟩]]) :=
  (model_failure_aborts newsFns twoPhaseModel [⟨Role.user, "hi"⟩] 2
    ⟨Role.user, "hi"⟩ "boom"
    [.modelCall [⟨Role.user, "hi"⟩],
     .toolCall "get_news" [],
     .modelCall [⟨Role.user, "hi"⟩, ⟨Role.user, Json.dumps (.str "data")⟩]]
    rfl (by decide)
    (by simp [loop, loopStep, processBlocks, execToolCall,
          twoPhaseModel, newsFns, okHandle])).1

/-- C8: the loop enforces no round or turn limit.  Against a model that
responds with `stop_reason == "tool_use"` on every invocation, the loop
never returns within any amount of fuel, and it performs one Model Client
call per unit of fuel — it iterates model call and tool dispatch
indefinitely. -/
theorem no_round_limit
    (fns : String → Option (Option Handle))
    (model : List ChatMessage → Except String ModelResponse)
    (hm : ∀ msgs, ∃ resp, model msgs = .ok resp ∧ resp.stop_reason = "tool_use") :
    ∀ (fuel : Nat) (s : LoopState),
      (loop fns model fuel s).1 = none ∧
      ((loop fns model fuel s).2.countP Event.isModelCall) = fuel := by
  intro fuel
  induction fuel with
  | zero => intro s; exact ⟨rfl, rfl⟩
  | succ n ih =>
    intro s
    obtain ⟨resp, hresp, hstop⟩ := hm (s.chat_history ++ s.generated_messages)
    have hstep : loopStep fns model s
        = (.ok (.inl ⟨s.chat_history,
            s.generated_messages ++ (processBlocks fns resp.content).1⟩),
          .modelCall (s.chat_history ++ s.generated_messages)
            :: (processBlocks fns resp.content).2) := by
      unfold loopStep
      rw [hresp]
      simp [hstop]
    have ih2 := ih ⟨s.chat_history,
      s.generated_messages ++ (processBlocks fns resp.content).1⟩
    unfold loop
    rw [hstep]
    refine ⟨by simpa using ih2.1, ?_⟩
    simp only [List.countP_cons, List.countP_append]
    rw [processBlocks_no_modelCall fns resp.content]
    simp [Event.isModelCall, ih2.2]
    omega

/-- Closed instance of the missing round limit: an always-tool-use model
exhausts three units of fuel without the loop returning. -/
theorem no_round_limit_witness :
    (loop emptyFns toolLoopModel 3
      ⟨[⟨Role.user, "q"⟩], []⟩).1 = none :=
  (no_round_limit emptyFns toolLoopModel
    (fun _ => ⟨⟨"tool_use", []⟩, rfl, rfl⟩) 3 ⟨[⟨Role.user, "q"⟩], []⟩).1

/-- C9: the loop never mutates the caller-supplied history.  Each iteration
that continues carries `chat_history` through unchanged (turn objects
included) and only appends freshly created turns to its own
`generated_messages` sequence. -/
theorem history_not_mutated
    (fns : String → Option (Option Handle))
    (model : List ChatMessage → Except String ModelResponse)
    (s s2 : LoopState) (evs : List Event)
    (h : loopStep fns model s = (.ok (.inl s2), evs)) :
    s2.chat_history = s.chat_history ∧
    ∃ new : List ChatMessage,
      s2.generated_messages = s.generated_messages ++ new := by
  obtain ⟨resp, -, -, hch, hgen, -⟩ := loopStep_inl fns model s s2 evs h
  exact ⟨hch, (processBlocks fns resp.content).1, hgen⟩

/-- Closed instance of history preservation across one continuing
iteration. -/
theorem history_not_mutated_witness :
    (LoopState.mk [⟨Role.user, "hi"⟩]
        [⟨Role.user, Json.dumps (.str "data")⟩]).chat_history
      = (LoopState.mk [⟨Role.user, "hi"⟩] []).chat_history :=
  (history_not_mutated newsFns twoPhaseModel
    ⟨[⟨Role.user, "hi"⟩], []⟩
    ⟨[⟨Role.user, "hi"⟩], [⟨Role.user, Json.dumps (.str "data")⟩]⟩
    [.modelCall [⟨Role.user, "hi"⟩], .toolCall "get_news" []]
    (by simp [loopStep, processBlocks, execToolCall,
          twoPhaseModel, newsFns, okHandle])).1

/-- C7: registry construction binds every configured logical tool name and
never aborts.  Whatever the remote platform does, every configured name has
an entry in the constructed `functions` dict; when the bind for a name
fails, the entry is stored with an absent handle (`none`), observable by
lookup before dispatch; and when it succeeds, the resolved handle is
stored. -/
theorem registry_binds_every_name
    (lookupFn : String → String → Except String Handle) :
    (∀ e ∈ registryConfig,
      ((functions lookupFn).lookup e.1).isSome) ∧
    (∀ e ∈ registryConfig, ∀ err, lookupFn e.2.1 e.2.2 = .error err →
      (functions lookupFn).lookup e.1 = some none) ∧
    (∀ e ∈ registryConfig, ∀ h, lookupFn e.2.1 e.2.2 = .ok h →
      (functions lookupFn).lookup e.1 = some (some h)) := by
  have hn : (registryConfig.map fun e => e.1).Nodup := by decide
  have hl := lookup_map_config lookupFn registryConfig hn
  refine ⟨fun e he => ?_, fun e he err herr => ?_, fun e he h hok => ?_⟩
  · rw [show functions lookupFn
        = registryConfig.map fun c => (c.1, (lookupFn c.2.1 c.2.2).toOption)
        from rfl]
    rw [hl e he]
    rfl
  · have := hl e he
    rw [herr] at this
    exact this
  · have := hl e he
    rw [hok] at this
    exact this

/-- Closed instance of fault-tolerant registry construction: when every
remote lookup fails, the `get_news` entry still exists, with an absent
handle. -/
theorem registry_binds_every_name_witness :
    (functions failLookup).lookup "get_news" = some none :=
  (registry_binds_every_name failLookup).2.1 ("get_news", "news", "get_news")
    (by decide) "unreachable platform" rfl

/-- C4: tool calls of one model response are dispatched sequentially in
exactly the order supplied — the dispatch-event trace is the calls in order,
with no reordering — and the collected result turns are the in-order
filtering of the successful calls; when every call succeeds, the number of
result turns equals the number of calls (one per call, same order). -/
theorem sequential_dispatch
    (fns : String → Option (Option Handle)) (calls : List (String × Args)) :
    (processBlocks fns (calls.map fun c => Block.tool_use c.1 c.2)).2
      = calls.map (fun c => Event.toolCall c.1 c.2) ∧
    (processBlocks fns (calls.map fun c => Block.tool_use c.1 c.2)).1
      = calls.filterMap (fun c =>
          match execToolCall fns c.1 c.2 with
          | .ok p => some ⟨Role.user, Json.dumps p⟩
          | .error _ => none) ∧
    ((∀ c ∈ calls, ∃ p, execToolCall fns c.1 c.2 = .ok p) →
      (processBlocks fns (calls.map fun c => Block.tool_use c.1 c.2)).1.length
        = calls.length) := by
  induction calls with
  | nil => exact ⟨rfl, rfl, fun _ => rfl⟩
  | cons c rest ih =>
    obtain ⟨ih1, ih2, ih3⟩ := ih
    refine ⟨?_, ?_, ?_⟩
    · simp only [List.map_cons]
      unfold processBlocks
      cases hx : execToolCall fns c.1 c.2 <;> simp [ih1]
    · simp only [List.map_cons, List.filterMap_cons]
      unfold processBlocks
      cases hx : execToolCall fns c.1 c.2 <;> simp [ih2]
    · intro hall
      obtain ⟨p, hp⟩ := hall c (List.mem_cons_self c rest)
      have hrest := ih3 fun x hx => hall x (List.mem_cons_of_mem c hx)
      simp only [List.map_cons]
      unfold processBlocks
      rw [hp]
      simpa using hrest

/-- Closed instance of sequential dispatch: a one-call batch on a resolved
tool yields exactly one result turn. -/
theorem sequential_dispatch_witness :
    (processBlocks newsFns [Block.tool_use "get_news" []]).1.length = 1 := by
  apply (sequential_dispatch newsFns [("get_news", [])]).2.2
  intro c hc
  rw [List.mem_singleton] at hc
  subst hc
  exact ⟨.str "data", rfl⟩

/-- C3: a failing call in a batch contributes no turn while the other calls
still contribute theirs, in order — for a 3-call batch whose second call
fails, exactly the two result turns for the first and third calls are
collected — and the loop then re-invokes the model on the extended
conversation rather than aborting (the next trace event after the batch is
another Model Client call). -/
theorem tool_failure_skip
    (fns : String → Option (Option Handle))
    (model : List ChatMessage → Except String ModelResponse)
    (hist gen : List ChatMessage) (k : Nat)
    (n1 n2 n3 : String) (a1 a2 a3 : Args) (p1 p3 : Json) (e : String)
    (h1 : execToolCall fns n1 a1 = .ok p1)
    (h2 : execToolCall fns n2 a2 = .error e)
    (h3 : execToolCall fns n3 a3 = .ok p3)
    (hm : model (hist ++ gen) = .ok ⟨"tool_use",
      [.tool_use n1 a1, .tool_use n2 a2, .tool_use n3 a3]⟩) :
    processBlocks fns [.tool_use n1 a1, .tool_use n2 a2, .tool_use n3 a3]
      = ([⟨Role.user, Json.dumps p1⟩, ⟨Role.user, Json.dumps p3⟩],
         [.toolCall n1 a1, .toolCall n2 a2, .toolCall n3 a3]) ∧
    (loop fns model (k + 1 + 1) ⟨hist, gen⟩).2
      = .modelCall (hist ++ gen) :: .toolCall n1 a1 :: .toolCall n2 a2
          :: .toolCall n3 a3
          :: (loop fns model (k + 1)
              ⟨hist, gen ++ [⟨Role.user, Json.dumps p1⟩,
                ⟨Role.user, Json.dumps p3⟩]⟩).2 ∧
    (loop fns model (k + 1)
        ⟨hist, gen ++ [⟨Role.user, Json.dumps p1⟩,
          ⟨Role.user, Json.dumps p3⟩]⟩).2.head?
      = some (.modelCall (hist ++ (gen ++ [⟨Role.user, Json.dumps p1⟩,
          ⟨Role.user, Json.dumps p3⟩]))) := by
  have hpb : processBlocks fns [.tool_use n1 a1, .tool_use n2 a2, .tool_use n3 a3]
      = ([⟨Role.user, Json.dumps p1⟩, ⟨Role.user, Json.dumps p3⟩],
         [.toolCall n1 a1, .toolCall n2 a2, .toolCall n3 a3]) := by
    simp [processBlocks, h1, h2, h3]
  have hstep : loopStep fns model ⟨hist, gen⟩
      = (.ok (.inl ⟨hist, gen ++ [⟨Role.user, Json.dumps p1⟩,
          ⟨Role.user, Json.dumps p3⟩]⟩),
         [.modelCall (hist ++ gen), .toolCall n1 a1, .toolCall n2 a2,
          .toolCall n3 a3]) := by
    simp [loopStep, hm, hpb]
  obtain ⟨rest, hrest⟩ := loop_trace_cons fns model k
    ⟨hist, gen ++ [⟨Role.user, Json.dumps p1⟩, ⟨Role.user, Json.dumps p3⟩]⟩
  refine ⟨hpb, ?_, ?_⟩
  · rw [loop, hstep]
    rfl
  · rw [hrest]
    rfl

/-- Closed instance of the graceful tool-failure skip: in the batch
`[get_news, missing, get_news]` the middle call fails and exactly the two
result turns for the outer calls are collected, in order. -/
theorem tool_failure_skip_witness :
    processBlocks newsFns
      [.tool_use "get_news" [], .tool_use "missing" [], .tool_use "get_news" []]
      = ([⟨Role.user, Json.dumps (.str "data")⟩,
          ⟨Role.user, Json.dumps (.str "data")⟩],
         [.toolCall "get_news" [], .toolCall "missing" [],
          .toolCall "get_news" []]) :=
  (tool_failure_skip newsFns batchModel [⟨Role.user, "hi"⟩] [] 0
    "get_news" "missing" "get_news" [] [] []
    (.str "data") (.str "data") ("KeyError: " ++ "missing")
    rfl rfl rfl rfl).1

/-- C5 counterexample: in a concrete run in which `get_news` succeeds with
payload `"data"`, the next Model Client invocation is sent exactly the
original history followed by the serialized result turn, and every turn in
that sequence has role USER — the sequence holds no model-authored
(ToolCall-bearing) turn at all, so the result turn is not located after any
ToolCall-bearing turn, contrary to the claim. -/
theorem tool_result_round_trip_cex :
    (analyze_market_with_tools newsFns twoPhaseModel [⟨Role.user, "hi"⟩] 2).2
      = [.modelCall [⟨Role.user, "hi"⟩],
         .toolCall "get_news" [],
         .modelCall [⟨Role.user, "hi"⟩, ⟨Role.user, Json.dumps (.str "data")⟩]] ∧
    ([⟨Role.user, "hi"⟩, ⟨Role.user, Json.dumps (.str "data")⟩]
        : List ChatMessage).map ChatMessage.role = [Role.user, Role.user] := by
  have hb : isBlank "hi" = false := by decide
  constructor
  · simp [analyze_market_with_tools, hb, loop, loopStep, processBlocks,
      execToolCall, twoPhaseModel, newsFns, okHandle]
  · simp

/-- C5 (amended): a successful tool execution with payload `P` appends
exactly one USER-role turn whose content is the canonical serialization of
`P`, placed after all previously submitted turns; the next Model Client
invocation receives exactly the previous conversation extended by that turn
(before any further model turns), and no ToolCall-bearing turn is recorded
in between — the model's tool-use response itself is not persisted as a
turn. -/
theorem tool_result_round_trip
    (fns : String → Option (Option Handle))
    (model : List ChatMessage → Except String ModelResponse)
    (hist gen : List ChatMessage) (k : Nat)
    (n : String) (a : Args) (p : Json)
    (hx : execToolCall fns n a = .ok p)
    (hm : model (hist ++ gen) = .ok ⟨"tool_use", [.tool_use n a]⟩) :
    loopStep fns model ⟨hist, gen⟩
      = (.ok (.inl ⟨hist, gen ++ [⟨Role.user, Json.dumps p⟩]⟩),
         [.modelCall (hist ++ gen), .toolCall n a]) ∧
    (loop fns model (k + 1 + 1) ⟨hist, gen⟩).2
      = .modelCall (hist ++ gen) :: .toolCall n a
          :: (loop fns model (k + 1)
              ⟨hist, gen ++ [⟨Role.user, Json.dumps p⟩]⟩).2 ∧
    (loop fns model (k + 1) ⟨hist, gen ++ [⟨Role.user, Json.dumps p⟩]⟩).2.head?
      = some (.modelCall (hist ++ (gen ++ [⟨Role.user, Json.dumps p⟩]))) := by
  have hpb : processBlocks fns [.tool_use n a]
      = ([⟨Role.user, Json.dumps p⟩], [.toolCall n a]) := by
    simp [processBlocks, hx]
  have hstep : loopStep fns model ⟨hist, gen⟩
      = (.ok (.inl ⟨hist, gen ++ [⟨Role.user, Json.dumps p⟩]⟩),
         [.modelCall (hist ++ gen), .toolCall n a]) := by
    simp [loopStep, hm, hpb]
  obtain ⟨rest, hrest⟩ := loop_trace_cons fns model k
    ⟨hist, gen ++ [⟨Role.user, Json.dumps p⟩]⟩
  refine ⟨hstep, ?_, ?_⟩
  · rw [loop, hstep]
    rfl
  · rw [hrest]
    rfl

/-- Closed instance of the amended round trip: the result turn for payload
`"data"` is appended directly after the one-turn history. -/
theorem tool_result_round_trip_witness :
    loopStep newsFns twoPhaseModel ⟨[⟨Role.user, "hi"⟩], []⟩
      = (.ok (.inl ⟨[⟨Role.user, "hi"⟩],
          [⟨Role.user, Json.dumps (.str "data")⟩]⟩),
         [.modelCall [⟨Role.user, "hi"⟩], .toolCall "get_news" []]) :=
  (tool_result_round_trip newsFns twoPhaseModel [⟨Role.user, "hi"⟩] [] 0
    "get_news" [] (.str "data") rfl rfl).1

/-- Whenever the loop returns normally, the returned list is the generated
turns at entry, extended by USER-role tool-result turns, ended by exactly
one ASSISTANT turn carrying the text of the first content block of the
final (non-tool-use) model response. -/
theorem loop_ok_shape
    (fns : String → Option (Option Handle))
    (model : List ChatMessage → Except String ModelResponse) :
    ∀ (fuel : Nat) (s : LoopState) (out : List ChatMessage) (evs : List Event),
      loop fns model fuel s = (some (.ok out), evs) →
      ∃ (new : List ChatMessage) (t : String) (resp : ModelResponse)
        (rest : List Block),
        out = s.generated_messages ++ new ++ [⟨Role.assistant, t⟩] ∧
        (∀ x ∈ new, x.role = Role.user) ∧
        model (s.chat_history ++ (s.generated_messages ++ new)) = .ok resp ∧
        ¬ resp.stop_reason = "tool_use" ∧
        resp.content = .text t :: rest := by
  intro fuel
  induction fuel with
  | zero =>
    intro s out evs h
    exact absurd h (by simp [loop])
  | succ n ih =>
    intro s out evs h
    rw [loop] at h
    cases hstep : loopStep fns model s with
    | mk res evs0 =>
      rw [hstep] at h
      cases res with
      | error e => simp at h
      | ok v =>
        cases v with
        | inr o =>
          simp only [Prod.mk.injEq, Option.some.injEq, Except.ok.injEq] at h
          obtain ⟨rfl, rfl⟩ := h
          obtain ⟨resp, t, rest, hm, hstop, hcont, ho, -⟩ :=
            loopStep_inr fns model s o evs0 hstep
          refine ⟨[], t, resp, rest, by simpa using ho, by simp, ?_, hstop, hcont⟩
          simpa using hm
        | inl s2 =>
          simp only [Prod.mk.injEq] at h
          obtain ⟨h1, h2⟩ := h
          cases hr : loop fns model n s2 with
          | mk r1 r2 =>
            rw [hr] at h1
            obtain ⟨new2, t, resp, rest, hout, hroles, hm, hstop, hcont⟩ :=
              ih s2 out r2 (by rw [hr, ← h1])
            obtain ⟨resp1, -, -, hch, hgen, -⟩ :=
              loopStep_inl fns model s s2 evs0 hstep
            refine ⟨(processBlocks fns resp1.content).1 ++ new2, t, resp, rest,
              ?_, ?_, ?_, hstop, hcont⟩
            · rw [hout, hgen]
              simp
            · intro x hx
              rcases List.mem_append.mp hx with hx1 | hx2
              · exact processBlocks_roles fns resp1.content x hx1
              · exact hroles x hx2
            · rw [hch, hgen] at hm
              simpa [List.append_assoc] using hm

/-- C6: when the model signals a final answer, the invocation returns
(besides the USER-role tool-result turns generated this invocation) exactly
one trailing ASSISTANT turn carrying the final response text, and the
returned list is only the turns generated during this invocation — the
caller-supplied history is not part of it. -/
theorem final_answer_return
    (fns : String → Option (Option Handle))
    (model : List ChatMessage → Except String ModelResponse)
    (hist : List ChatMessage) (fuel : Nat) (last : ChatMessage)
    (out : List ChatMessage) (evs : List Event)
    (hlast : hist.getLast? = some last) (hnb : isBlank last.content = false)
    (hloop : loop fns model fuel ⟨hist, []⟩ = (some (.ok out), evs)) :
    analyze_market_with_tools fns model hist fuel = (some out, evs) ∧
    ∃ (results : List ChatMessage) (t : String) (resp : ModelResponse)
      (rest : List Block),
      out = results ++ [⟨Role.assistant, t⟩] ∧
      (∀ x ∈ results, x.role = Role.user) ∧
      model (hist ++ results) = .ok resp ∧
      ¬ resp.stop_reason = "tool_use" ∧
      resp.content = .text t :: rest := by
  constructor
  · unfold analyze_market_with_tools
    rw [hlast]
    simp [hnb, hloop]
  · obtain ⟨new, t, resp, rest, hout, hroles, hm, hstop, hcont⟩ :=
      loop_ok_shape fns model fuel ⟨hist, []⟩ out evs hloop
    exact ⟨new, t, resp, rest, by simpa using hout, hroles,
      by simpa using hm, hstop, hcont⟩

/-- Closed instance of the final-answer return: the model answers
immediately and the invocation returns exactly the one assistant turn. -/
theorem final_answer_return_witness :
    analyze_market_with_tools emptyFns finalModel [⟨Role.user, "hi"⟩] 1
      = (some [⟨Role.assistant, "done"⟩], [.modelCall [⟨Role.user, "hi"⟩]]) :=
  (final_answer_return emptyFns finalModel [⟨Role.user, "hi"⟩] 1
    ⟨Role.user, "hi"⟩ [⟨Role.assistant, "done"⟩]
    [.modelCall [⟨Role.user, "hi"⟩]] rfl (by decide) rfl).1
